import Mathlib

/-!
Shallow embedding of `src/findbeacons.py` (squidsifter beacon finder).

Modelling conventions:
* Python floats (timestamps) are modelled as exact rationals `ℚ`; every
  concrete input used below is a small decimal for which the float and the
  rational computations agree on every comparison the program performs.
* A log is a list of lines (`List String`), as produced by iterating over the
  open file object; trailing newlines are part of the line.
* The Python regular expression produced by `build_regex_str` for the fields
  `["timestamp", "client", "url"]` is embedded as an explicit syntax tree
  (`RE`) together with a backtracking matcher (`matchStk` / `searchStk`) that
  reproduces `re` semantics for the constructs actually occurring in that
  expression: character classes `\d`, `\s`, `.`, literal characters, greedy
  `x*` (via `\d+`, `\s+`), lazy `x*?` (via `.*?`, `\d+?`) and capture groups.
  Priority of alternatives is the backtracking priority of CPython's `re`
  (greedy: longer first; lazy: shorter first; search: leftmost position
  first).  The matcher is fuelled; the fuel chosen in `parseLine` dominates
  the depth of any backtracking path (one unit per engine step, and between
  two consumed characters at most `RE.size` steps occur, so the depth is
  below `(length + 2) * (size + 2)`).
* The configured client is interpolated into the regular expression by
  `build_regex_str` verbatim; `litPat` translates it character by character,
  `'.'` becoming the any-character class, which is faithful for every client
  value considered here (none contains another metacharacter).
-/

namespace FindBeacons

attribute [local semireducible] Rat.add Rat.sub Rat.mul Rat.inv

/-- Character classes occurring in the constructed regular expression. -/
inductive CharCls where
  | digit : CharCls
  | space : CharCls
  | dot : CharCls
  | lit : Char → CharCls

/-- Membership test for a character class, matching CPython `re` on ASCII:
`\d` is a decimal digit, `\s` is whitespace, `.` is anything but a newline. -/
def CharCls.test : CharCls → Char → Bool
  | .digit, c => c.isDigit
  | .space, c => c == ' ' || c == '\t' || c == '\n' || c == '\r' || c == '\x0b' || c == '\x0c'
  | .dot, c => c != '\n'
  | .lit a, c => c == a

/-- Syntax tree of the regular expressions built by `build_regex_str`.
`starG` is greedy `x*`, `starL` is lazy `x*?`; `openG`/`closeG` delimit a
capture group. -/
inductive RE where
  | eps : RE
  | cls : CharCls → RE
  | seq : RE → RE → RE
  | starG : RE → RE
  | starL : RE → RE
  | openG : Nat → RE
  | closeG : Nat → RE

/-- Number of nodes of a regular expression (used to size the matcher fuel). -/
def RE.size : RE → Nat
  | .eps => 1
  | .cls _ => 1
  | .seq a b => a.size + b.size + 1
  | .starG a => a.size + 1
  | .starL a => a.size + 1
  | .openG _ => 1
  | .closeG _ => 1

/-- Backtracking matcher.  `matchStk fuel k s opens acc` tries to match the
stack of expressions `k` (in order) against a prefix of `s`, returning the
capture list of the highest-priority success, or `none`.  `opens` holds the
currently open groups as `(group, remaining-length at open)`; `acc` holds the
closed groups as `(group, remaining-length at open, remaining-length at
close)`.  Remaining lengths are measured on the suffix the search started at,
so a captured slice is recovered from them in `extractGroup`. -/
def matchStk : Nat → List RE → List Char → List (Nat × Nat) → List (Nat × Nat × Nat) →
    Option (List (Nat × Nat × Nat))
  | 0, _, _, _, _ => none
  | _ + 1, [], _, _, acc => some acc
  | fuel + 1, r :: k, s, opens, acc =>
    match r with
    | .eps => matchStk fuel k s opens acc
    | .cls kc =>
      match s with
      | [] => none
      | c :: rest => if kc.test c then matchStk fuel k rest opens acc else none
    | .seq a b => matchStk fuel (a :: b :: k) s opens acc
    | .starG a =>
      match matchStk fuel (a :: .starG a :: k) s opens acc with
      | some res => some res
      | none => matchStk fuel k s opens acc
    | .starL a =>
      match matchStk fuel k s opens acc with
      | some res => some res
      | none => matchStk fuel (a :: .starL a :: k) s opens acc
    | .openG n => matchStk fuel k s ((n, s.length) :: opens) acc
    | .closeG n =>
      match opens with
      | [] => none
      | (m, st) :: rest =>
        if m = n then matchStk fuel k s rest ((n, st, s.length) :: acc) else none

/-- Unanchored search, as performed by `re.findall` when taking the first
match: try each start position from the left, keeping the suffix the match
started at (needed to decode the capture positions). -/
def searchStk (fuel : Nat) (r : RE) : List Char → Option (List Char × List (Nat × Nat × Nat))
  | [] =>
    match matchStk fuel [r] [] [] [] with
    | some caps => some ([], caps)
    | none => none
  | c :: rest =>
    match matchStk fuel [r] (c :: rest) [] [] with
    | some caps => some (c :: rest, caps)
    | none => searchStk fuel r rest

/-- First capture entry for group `n`. -/
def lookupGroup : List (Nat × Nat × Nat) → Nat → Option (Nat × Nat)
  | [], _ => none
  | (m, st, en) :: rest, n => if m = n then some (st, en) else lookupGroup rest n

/-- The slice of the suffix `s` captured by group `n`. -/
def extractGroup (s : List Char) (caps : List (Nat × Nat × Nat)) (n : Nat) : List Char :=
  match lookupGroup caps n with
  | none => []
  | some (st, en) => (s.drop (s.length - st)).take (st - en)

/-- Expression `\s+`. -/
def wsPlus : RE := .seq (.cls .space) (.starG (.cls .space))

/-- Expression `\d+`. -/
def digitsPlus : RE := .seq (.cls .digit) (.starG (.cls .digit))

/-- Expression `\d+?` (the `bytes` field). -/
def digitsPlusLazy : RE := .seq (.cls .digit) (.starL (.cls .digit))

/-- Expression `.*?`. -/
def anyLazy : RE := .starL (.cls .dot)

/-- Expression `\d+\.\d+` (the `timestamp` field). -/
def tsPat : RE := .seq digitsPlus (.seq (.cls (.lit '.')) digitsPlus)

/-- Expression `.*?/.*?` (the `result_code` field). -/
def resultCodePat : RE := .seq anyLazy (.seq (.cls (.lit '/')) anyLazy)

/-- Capture group `n`, i.e. parentheses around `r`. -/
def grp (n : Nat) (r : RE) : RE := .seq (.openG n) (.seq r (.closeG n))

/-- The configured client string interpolated into the expression, character
by character; `.` is the any-character class, other characters are literals
(faithful for client values without further metacharacters). -/
def litPat (p : List Char) : RE :=
  p.foldr (fun c r => .seq (.cls (if c == '.' then .dot else .lit c)) r) .eps

/-- The `client` field of the expression: `build_regex_str` substitutes
`(client)` when a client is configured (truthy), and leaves the capturing
default `(.*?)` otherwise. -/
def clientPat (client : String) : RE :=
  if client.data.isEmpty then grp 2 anyLazy else grp 2 (litPat client.data)

/-- Join the field expressions with `\s+`, as `r"\s+".join(...)` does. -/
def seqAll : List RE → RE
  | [] => .eps
  | [r] => r
  | r :: s :: rest => .seq r (.seq wsPlus (seqAll (s :: rest)))

/-- The full line expression built by
`build_regex_str(["timestamp", "client", "url"])`: the ten fields in
`field_order`, with `timestamp`, `client` and `url` captured (groups 1-3). -/
def lineRE (client : String) : RE :=
  seqAll [grp 1 tsPat, digitsPlus, clientPat client, resultCodePat, digitsPlusLazy,
    anyLazy, grp 3 anyLazy, anyLazy, anyLazy, anyLazy]

/-- Decimal digits to a natural number. -/
def digitsToNat (l : List Char) : Nat :=
  l.foldl (fun n c => n * 10 + (c.toNat - 48)) 0

/-- Python `float(...)` applied to a string matched by `\d+\.\d+`, idealised as
the exact decimal rational. -/
def parseTs (s : List Char) : ℚ :=
  let ip := s.takeWhile (fun c => c != '.')
  let fp := (s.dropWhile (fun c => c != '.')).drop 1
  (digitsToNat ip : ℚ) + (digitsToNat fp : ℚ) / ((10 : ℚ) ^ fp.length)

/-- One iteration of the extraction loop (lines 197-207): the first match of
the compiled expression on the line, decoded to `(timestamp, url)`; `none`
when `findall` returns no match and the line is skipped. -/
def parseLine (client : String) (line : String) : Option (ℚ × String) :=
  let r := lineRE client
  let fuel := (line.data.length + 2) * (r.size + 2)
  match searchStk fuel r line.data with
  | none => none
  | some (s, caps) => some (parseTs (extractGroup s caps 1), String.mk (extractGroup s caps 3))

/-- Append of `timestamp` to `time_data[url]`, creating the entry if absent
(lines 209-213); the association list keeps Python's dict insertion order. -/
def addObs : List (String × List ℚ) → String → ℚ → List (String × List ℚ)
  | [], url, t => [(url, [t])]
  | (u, ts) :: rest, url, t =>
    if u = url then (u, ts ++ [t]) :: rest else (u, ts) :: addObs rest url t

/-- Processing of one line of the log in the first loop. -/
def stepLine (client : String) (td : List (String × List ℚ)) (line : String) :
    List (String × List ℚ) :=
  match parseLine client line with
  | none => td
  | some (t, url) => addObs td url t

/-- The whole first loop: fold the lines into the url → timestamps map. -/
def aggregate (client : String) (lines : List String) : List (String × List ℚ) :=
  lines.foldl (stepLine client) []

/-- Python `int()` on a rational: truncation toward zero. -/
def pyInt (q : ℚ) : ℤ := if 0 ≤ q then ⌊q⌋ else ⌈q⌉

/-- The inner loop (lines 231-240) for one starting timestamp `t`: scan the
given timestamps in order; report a match on `delta == interval`, stop
without a match on `delta > interval`, otherwise continue. -/
def firstMatch (interval : ℤ) (t : ℚ) : List ℚ → Bool
  | [] => false
  | u :: rest =>
    let delta := pyInt (t - u)
    if delta = interval then true
    else if interval < delta then false
    else firstMatch interval t rest

/-- The outer loop (line 230) over `enumerate(timestamps[:-1])`: the element
at index `i` of the truncated list is scanned against the suffix of that same
truncated list starting at `i` (Python's `range(cur_index, timestamp_count - 1)`). -/
def countLoop (interval : ℤ) : List ℚ → ℕ
  | [] => 0
  | t :: rest => (if firstMatch interval t (t :: rest) then 1 else 0) + countLoop interval rest

/-- Sorting by `list.sort(reverse=True)`: newest-to-oldest order. -/
def sortDesc (ts : List ℚ) : List ℚ :=
  List.insertionSort (fun a b => b ≤ a) ts

/-- The `beacon_count` computed for one (already sorted) timestamp series. -/
def beaconCount (interval : ℤ) (ts : List ℚ) : ℕ :=
  countLoop interval ts.dropLast

/-- The second loop (lines 217-248): drop single-timestamp urls, sort each
series newest-to-oldest, count, and keep a url exactly when
`beacon_count >= min_count`. -/
def detect (interval minCount : ℤ) (td : List (String × List ℚ)) : List (String × ℕ) :=
  td.filterMap fun e =>
    if e.2.length = 1 then none
    else if minCount ≤ (beaconCount interval (sortDesc e.2) : ℤ) then
      some (e.1, beaconCount interval (sortDesc e.2))
    else none

/-- The final result of `find_beacons` (the state of `time_data` at line 250)
as a url → count association list. -/
def findBeacons (client : String) (interval minCount : ℤ) (lines : List String) :
    List (String × ℕ) :=
  detect interval minCount (aggregate client lines)

/-- Formatting by width-5 right-justification, as the report format does. -/
def padLeft5 (s : String) : String :=
  String.mk (List.replicate (5 - s.length) ' ') ++ s

/-- The report printed at lines 250-263, one string per printed line: a header
plus one line per url when the result is non-empty, and the
`No sites with at least ... intervals at ... seconds` message otherwise. -/
def reportLines (interval minCount : ℤ) (res : List (String × ℕ)) : List String :=
  if res.isEmpty then
    ["No sites with at least " ++ toString minCount ++ " intervals at " ++
      toString interval ++ " seconds"]
  else
    ("Sites that had at least " ++ toString minCount ++ " " ++ toString interval ++
        "-second intervals") ::
      res.map fun e => padLeft5 (toString e.2) ++ " - " ++ e.1

/-- The timestamp series recorded for `url` ( `[]` when absent). -/
def seriesOf (url : String) (td : List (String × List ℚ)) : List ℚ :=
  match td.find? (fun e => e.1 == url) with
  | some e => e.2
  | none => []

/-- Whitespace as used by the log format (for talking about a line's fields). -/
def isWs (c : Char) : Bool := c == ' ' || c == '\t' || c == '\n' || c == '\r'

/-- Helper of `wsFields`: split on whitespace runs, accumulating the current
field in reverse. -/
def wsFieldsAux : List Char → List Char → List String
  | [], acc => if acc.isEmpty then [] else [String.mk acc.reverse]
  | c :: rest, acc =>
    if isWs c then
      if acc.isEmpty then wsFieldsAux rest [] else String.mk acc.reverse :: wsFieldsAux rest []
    else wsFieldsAux rest (c :: acc)

/-- The whitespace-separated fields of a line (how the log format's ten
columns are delimited). -/
def wsFields (line : String) : List String := wsFieldsAux line.data []

/- Concrete log lines used by the scenarios below. -/

/-- Client `10.0.0.5` requests `/beacon` at `100.0`. -/
def lineB1 : String := "100.0 1 10.0.0.5 a/b 1 m /beacon x h t\n"

/-- Client `10.0.0.5` requests `/beacon` at `105.0`. -/
def lineB2 : String := "105.0 1 10.0.0.5 a/b 1 m /beacon x h t\n"

/-- Client `10.0.0.5` requests `/beacon` at `110.0`. -/
def lineB3 : String := "110.0 1 10.0.0.5 a/b 1 m /beacon x h t\n"

/-- Client `10.0.0.5` requests `/beacon` at `115.0`. -/
def lineB4 : String := "115.0 1 10.0.0.5 a/b 1 m /beacon x h t\n"

/-- Client `10.0.0.5` requests `/page` once at `100.0`. -/
def linePage : String := "100.0 1 10.0.0.5 a/b 1 m /page x h t\n"

/-- A line whose client field is `10a0b0c5`, not the literal `10.0.0.5`. -/
def lineLeak : String := "100.0 1 10a0b0c5 a/b 1 m /x u h t\n"

/-- A truncated line: only three fields, no match for the line expression. -/
def lineShort : String := "100.0 1 10.0.0.5\n"

/-- Client `10.0.0.6` requests `/beacon` at `100.0`. -/
def lineO1 : String := "100.0 1 10.0.0.6 a/b 1 m /beacon x h t\n"

/-- Client `10.0.0.6` requests `/beacon` at `105.0`. -/
def lineO2 : String := "105.0 1 10.0.0.6 a/b 1 m /beacon x h t\n"

/-- Client `10.0.0.6` requests `/beacon` at `110.0`. -/
def lineO3 : String := "110.0 1 10.0.0.6 a/b 1 m /beacon x h t\n"

/-! Structural lemmas about the aggregation map and the detector. -/

theorem mem_detect_iff {interval minCount : ℤ} {td : List (String × List ℚ)}
    {url : String} {c : ℕ} :
    (url, c) ∈ detect interval minCount td ↔
      ∃ ts, (url, ts) ∈ td ∧ ts.length ≠ 1 ∧
        c = beaconCount interval (sortDesc ts) ∧ minCount ≤ (c : ℤ) := by
  unfold detect
  rw [List.mem_filterMap]
  constructor
  · rintro ⟨⟨u, ts⟩, hmem, hf⟩
    by_cases h1 : ts.length = 1
    · simp [h1] at hf
    · by_cases h2 : minCount ≤ (beaconCount interval (sortDesc ts) : ℤ)
      · simp only [h1, if_false, h2, if_true, Option.some.injEq, Prod.mk.injEq] at hf
        obtain ⟨hu, hc⟩ := hf
        subst hu
        exact ⟨ts, hmem, h1, hc.symm, hc ▸ h2⟩
      · simp [h1, h2] at hf
  · rintro ⟨ts, hmem, h1, hc, h2⟩
    refine ⟨(url, ts), hmem, ?_⟩
    simp only [h1, if_false, hc ▸ h2, if_true, hc]

theorem find?_eq_some_of_mem {td : List (String × List ℚ)} {url : String} {ts : List ℚ}
    (hnd : (td.map Prod.fst).Nodup) (h : (url, ts) ∈ td) :
    td.find? (fun e => e.1 == url) = some (url, ts) := by
  induction td with
  | nil => simp at h
  | cons e rest ih =>
    obtain ⟨u, l⟩ := e
    simp only [List.map_cons, List.nodup_cons] at hnd
    rcases List.mem_cons.mp h with heq | hmem
    · cases heq
      simp [List.find?]
    · have hne : u ≠ url := by
        intro he
        exact hnd.1 (he ▸ List.mem_map_of_mem Prod.fst hmem)

      rw [List.find?_cons_of_neg _ (by simpa using hne)]
      exact ih hnd.2 hmem

theorem seriesOf_eq_of_mem {td : List (String × List ℚ)} {url : String} {ts : List ℚ}
    (hnd : (td.map Prod.fst).Nodup) (h : (url, ts) ∈ td) : seriesOf url td = ts := by
  unfold seriesOf
  rw [find?_eq_some_of_mem hnd h]

theorem mem_keys_addObs {td : List (String × List ℚ)} {url k : String} {t : ℚ}
    (h : k ∈ (addObs td url t).map Prod.fst) : k = url ∨ k ∈ td.map Prod.fst := by
  induction td with
  | nil => simpa [addObs] using h
  | cons e rest ih =>
    obtain ⟨u, l⟩ := e
    by_cases he : u = url
    · simp only [addObs, he, if_true, List.map_cons, List.mem_cons] at h ⊢
      tauto
    · simp only [addObs, he, if_false, List.map_cons, List.mem_cons] at h ⊢
      rcases h with h | h
      · tauto
      · rcases ih h with h | h <;> tauto

theorem keys_nodup_addObs {td : List (String × List ℚ)} {url : String} {t : ℚ}
    (hnd : (td.map Prod.fst).Nodup) : ((addObs td url t).map Prod.fst).Nodup := by
  induction td with
  | nil => simp [addObs]
  | cons e rest ih =>
    obtain ⟨u, l⟩ := e
    simp only [List.map_cons, List.nodup_cons] at hnd
    by_cases he : u = url
    · simp only [addObs, he, if_true, List.map_cons, List.nodup_cons]
      exact ⟨he ▸ hnd.1, hnd.2⟩
    · simp only [addObs, he, if_false, List.map_cons, List.nodup_cons]
      refine ⟨?_, ih hnd.2⟩
      intro hmem
      rcases mem_keys_addObs hmem with h | h
      · exact he h
      · exact hnd.1 h

theorem series_ne_nil_addObs {td : List (String × List ℚ)} {url : String} {t : ℚ}
    (h : ∀ e ∈ td, e.2 ≠ []) : ∀ e ∈ addObs td url t, e.2 ≠ [] := by
  induction td with
  | nil =>
    intro e he
    simp only [addObs, List.mem_singleton] at he
    subst he
    simp
  | cons f rest ih =>
    obtain ⟨u, l⟩ := f
    intro e he
    by_cases hu : u = url
    · simp only [addObs, hu, if_true, List.mem_cons] at he
      rcases he with he | he
      · subst he
        simp
      · exact h e (List.mem_cons_of_mem _ he)
    · simp only [addObs, hu, if_false, List.mem_cons] at he
      rcases he with he | he
      · subst he
        exact h (u, l) (List.mem_cons_self _ _)
      · exact ih (fun f hf => h f (List.mem_cons_of_mem _ hf)) e he

theorem foldl_keys_nodup (client : String) (lines : List String) :
    ∀ td : List (String × List ℚ), (td.map Prod.fst).Nodup →
      ((lines.foldl (stepLine client) td).map Prod.fst).Nodup := by
  induction lines with
  | nil =>
    intro td h
    simpa using h
  | cons line rest ih =>
    intro td h
    rw [List.foldl_cons]
    apply ih
    unfold stepLine
    cases parseLine client line with
    | none => exact h
    | some p => exact keys_nodup_addObs h

theorem aggregate_keys_nodup (client : String) (lines : List String) :
    ((aggregate client lines).map Prod.fst).Nodup :=
  foldl_keys_nodup client lines [] (by simp)

theorem foldl_series_ne_nil (client : String) (lines : List String) :
    ∀ td : List (String × List ℚ), (∀ e ∈ td, e.2 ≠ []) →
      ∀ e ∈ lines.foldl (stepLine client) td, e.2 ≠ [] := by
  induction lines with
  | nil =>
    intro td h
    simpa using h
  | cons line rest ih =>
    intro td h
    rw [List.foldl_cons]
    apply ih
    unfold stepLine
    cases parseLine client line with
    | none => exact h
    | some p => exact series_ne_nil_addObs h

theorem aggregate_series_ne_nil (client : String) (lines : List String) :
    ∀ e ∈ aggregate client lines, e.2 ≠ [] :=
  foldl_series_ne_nil client lines [] (by simp)

/-! Lemmas about the counting loop. -/

theorem pyInt_zero : pyInt 0 = 0 := by
  simp [pyInt]

theorem countLoop_cons (interval : ℤ) (t : ℚ) (rest : List ℚ) :
    countLoop interval (t :: rest) =
      (if firstMatch interval t (t :: rest) then 1 else 0) + countLoop interval rest := rfl

theorem firstMatch_self_singleton {interval : ℤ} (hi : 1 ≤ interval) (t : ℚ) :
    firstMatch interval t [t] = false := by
  have h0 : pyInt (t - t) = 0 := by rw [sub_self, pyInt_zero]
  simp only [firstMatch, h0]
  have h1 : ¬((0 : ℤ) = interval) := by omega
  have h2 : ¬(interval < 0) := by omega
  simp [h1, h2]

theorem countLoop_le {interval : ℤ} (hi : 1 ≤ interval) :
    ∀ l : List ℚ, l ≠ [] → countLoop interval l + 1 ≤ l.length := by
  intro l
  induction l with
  | nil => intro h; exact absurd rfl h
  | cons t rest ih =>
    intro _
    rw [countLoop_cons]
    cases rest with
    | nil =>
      rw [firstMatch_self_singleton hi]
      simp [countLoop]
    | cons u rest2 =>
      have h2 := ih (by simp)
      have hb : (if firstMatch interval t (t :: u :: rest2) then 1 else 0) ≤ 1 := by
        split <;> omega
      simp only [List.length_cons] at h2 ⊢
      omega

theorem beaconCount_bound {interval : ℤ} (hi : 1 ≤ interval) (ts : List ℚ)
    (h2 : 2 ≤ ts.length) : beaconCount interval ts + 2 ≤ ts.length := by
  unfold beaconCount
  have hlen : ts.dropLast.length = ts.length - 1 := List.length_dropLast ts
  have hne : ts.dropLast ≠ [] := by
    intro h
    rw [h] at hlen
    simp at hlen
    omega
  have := countLoop_le hi ts.dropLast hne
  omega

theorem length_sortDesc (ts : List ℚ) : (sortDesc ts).length = ts.length :=
  (List.perm_insertionSort _ ts).length_eq

/-! Arithmetic of the truncated delta. -/

theorem pyInt_intCast_add_ninety (n : ℤ) (hn : 0 ≤ n) : pyInt ((n : ℚ) + 9 / 10) = n := by
  unfold pyInt
  rw [if_pos (add_nonneg (by exact_mod_cast hn) (by norm_num))]
  rw [add_comm, Int.floor_add_int]
  have : ⌊(9 / 10 : ℚ)⌋ = 0 := by decide
  omega

/-! Skipping of lines the regular expression does not match. -/

theorem foldl_stepLine_of_no_match (client : String) (lines : List String)
    (h : ∀ line ∈ lines, parseLine client line = none) :
    ∀ td : List (String × List ℚ), lines.foldl (stepLine client) td = td := by
  induction lines with
  | nil =>
    intro td
    rfl
  | cons line rest ih =>
    intro td
    rw [List.foldl_cons]
    have hline : parseLine client line = none := h line (List.mem_cons_self _ _)
    have hrest : ∀ l ∈ rest, parseLine client l = none :=
      fun l hl => h l (List.mem_cons_of_mem _ hl)
    rw [show stepLine client td line = td by simp [stepLine, hline]]
    exact ih hrest td

/-! The claims. -/

/-- C1: the specification claims that a series whose consecutive timestamps
are exactly `interval` apart yields `k - 1` interval matches for `k`
timestamps, and that client `10.0.0.5` requesting `/beacon` at
`[100.0, 105.0, 110.0, 115.0]` with `interval = 5`, `min_count = 3` yields
the result `/beacon ↦ 3`.  The code disagrees: the inner loop
`range(cur_index, timestamp_count - 1)` never offers the oldest timestamp as
a partner, so the perfect chain of 4 yields a count of 2, below the
threshold 3, and the final result of the scenario is empty. -/
theorem c1_chain_scenario_diverges :
    beaconCount 5 (sortDesc [100, 105, 110, 115]) = 2 ∧
    findBeacons "10.0.0.5" 5 3 [lineB1, lineB2, lineB3, lineB4] = [] := by
  decide

/-- C2 (counterexample): the claim says a pair of timestamps whose real-time
difference is exactly `interval + 0.9` seconds is not counted as an interval
match.  In fact truncation toward zero sends `interval + 0.9` to `interval`,
which passes the strict equality test: with `interval = 5` the pair
`(105.9, 100)` has truncated delta `5`, the inner scan reports a match on it,
and the detector counts it. -/
theorem c2_point9_pair_is_counted :
    (1059 / 10 : ℚ) - 100 = (5 : ℚ) + 9 / 10 ∧
    pyInt ((1059 / 10 : ℚ) - 100) = 5 ∧
    firstMatch 5 (1059 / 10) [100] = true ∧
    beaconCount 5 (sortDesc [0, 100, 1059 / 10]) = 1 := by
  decide

/-- C2 (amended): for every pair of timestamps whose real-time difference is
exactly `interval + 0.9` seconds (with `interval ≥ 0`), the delta truncated
toward zero equals `interval`, so the pair DOES pass the detector's interval
match test when the scan examines it. -/
theorem c2_point9_delta_matches (interval : ℤ) (t u : ℚ) (rest : List ℚ)
    (h0 : 0 ≤ interval) (hd : t - u = (interval : ℚ) + 9 / 10) :
    firstMatch interval t (u :: rest) = true := by
  have hp : pyInt (t - u) = interval := by
    rw [hd]
    exact pyInt_intCast_add_ninety interval h0
  simp only [firstMatch]
  rw [hp]
  simp

/-- Witness for C2 (amended) at `interval = 5`, `t = 105.9`, `u = 100`. -/
theorem c2_point9_delta_matches_witness : firstMatch 5 (1059 / 10) [100] = true :=
  c2_point9_delta_matches 5 (1059 / 10) 100 [] (by decide) (by decide)

/-- C3: raising `min_count` never adds a url to the final result: every
entry of the result computed at `min_count = m + 1` is an entry of the
result computed at `min_count = m` (all other inputs equal). -/
theorem c3_minCount_monotone (client : String) (interval m : ℤ) (lines : List String)
    (p : String × ℕ) (h : p ∈ findBeacons client interval (m + 1) lines) :
    p ∈ findBeacons client interval m lines := by
  obtain ⟨url, c⟩ := p
  unfold findBeacons at h ⊢
  rw [mem_detect_iff] at h ⊢
  obtain ⟨ts, hmem, h1, hc, h2⟩ := h
  exact ⟨ts, hmem, h1, hc, by omega⟩

/-- Witness for C3: the 3-chain log kept at `min_count = 1` is also kept at
`min_count = 0`. -/
theorem c3_minCount_monotone_witness :
    ("/beacon", 1) ∈ findBeacons "10.0.0.5" 5 0 [lineB1, lineB2, lineB3] :=
  c3_minCount_monotone "10.0.0.5" 5 0 [lineB1, lineB2, lineB3] ("/beacon", 1) (by decide)

/-- C4: a url whose recorded timestamp series has fewer than 2 entries is
absent from the final result, whatever the interval and threshold. -/
theorem c4_short_series_absent (client : String) (interval minCount : ℤ)
    (lines : List String) (url : String)
    (h : (seriesOf url (aggregate client lines)).length < 2) :
    url ∉ (findBeacons client interval minCount lines).map Prod.fst := by
  intro hmem
  rw [List.mem_map] at hmem
  obtain ⟨⟨u, c⟩, hp, he⟩ := hmem
  subst he
  unfold findBeacons at hp
  rw [mem_detect_iff] at hp
  obtain ⟨ts, hts, h1, _, _⟩ := hp
  have hnd := aggregate_keys_nodup client lines
  have hse := seriesOf_eq_of_mem hnd hts
  have hne := aggregate_series_ne_nil client lines _ hts
  rw [hse] at h
  have h0 : ts.length ≠ 0 := by simpa [List.length_eq_zero] using hne
  omega

/-- Witness for C4: `/page` requested once at `100.0` is absent. -/
theorem c4_short_series_absent_witness :
    "/page" ∉ (findBeacons "10.0.0.5" 7 1 [linePage]).map Prod.fst :=
  c4_short_series_absent "10.0.0.5" 7 1 [linePage] "/page" (by decide)

/-- C5: every url of the final result has a count of at least `min_count`
and had at least 2 timestamps recorded during aggregation. -/
theorem c5_result_invariant (client : String) (interval minCount : ℤ)
    (lines : List String) (url : String) (c : ℕ)
    (h : (url, c) ∈ findBeacons client interval minCount lines) :
    minCount ≤ (c : ℤ) ∧ 2 ≤ (seriesOf url (aggregate client lines)).length := by
  unfold findBeacons at h
  rw [mem_detect_iff] at h
  obtain ⟨ts, hts, h1, hc, h2⟩ := h
  have hnd := aggregate_keys_nodup client lines
  have hse := seriesOf_eq_of_mem hnd hts
  have hne := aggregate_series_ne_nil client lines _ hts
  have h0 : ts.length ≠ 0 := by simpa [List.length_eq_zero] using hne
  rw [hse]
  exact ⟨h2, by omega⟩

/-- Witness for C5 on the 3-chain log at `min_count = 1`. -/
theorem c5_result_invariant_witness :
    (1 : ℤ) ≤ ((1 : ℕ) : ℤ) ∧
      2 ≤ (seriesOf "/beacon" (aggregate "10.0.0.5" [lineB1, lineB2, lineB3])).length :=
  c5_result_invariant "10.0.0.5" 5 1 [lineB1, lineB2, lineB3] "/beacon" 1 (by decide)

/-- C6 (counterexample): the claim says a line whose client field does not
equal the configured target client (a literal string) contributes no
timestamp.  The target is in fact interpolated into the regular expression
as a pattern, where `.` matches any character: the line `lineLeak`, whose
client field (the third whitespace-separated field) is `10a0b0c5`, not the
target `10.0.0.5`, still contributes the timestamp `100.0` for `/x`. -/
theorem c6_nonliteral_client_contributes :
    (wsFields lineLeak).getD 2 "" = "10a0b0c5" ∧
    ("10a0b0c5" : String) ≠ "10.0.0.5" ∧
    aggregate "10.0.0.5" [lineLeak] = [("/x", [100])] := by
  decide

/-- C6 (amended): a line on which the constructed regular expression (with
the target client interpolated as a pattern) finds no match contributes no
timestamp; consequently a log in which every line fails the expression
yields an empty final result. -/
theorem c6_no_match_empty_result (client : String) (interval minCount : ℤ)
    (lines : List String) (h : ∀ line ∈ lines, parseLine client line = none) :
    findBeacons client interval minCount lines = [] := by
  unfold findBeacons aggregate
  rw [foldl_stepLine_of_no_match client lines h]
  rfl

/-- Witness for C6 (amended): the two-client scenario: a perfect 5-second
chain from client `10.0.0.6` never appears when the target is `10.0.0.5`. -/
theorem c6_no_match_empty_result_witness :
    findBeacons "10.0.0.5" 5 1 [lineO1, lineO2, lineO3] = [] :=
  c6_no_match_empty_result "10.0.0.5" 5 1 [lineO1, lineO2, lineO3] (by decide)

/-- C7: a line the line expression does not match is skipped silently: it
leaves the url → timestamps aggregation state unchanged and the scan goes on
with the remaining lines. -/
theorem c7_malformed_line_skipped (client : String) (pre post : List String)
    (line : String) (h : parseLine client line = none) :
    aggregate client (pre ++ line :: post) = aggregate client (pre ++ post) := by
  unfold aggregate
  rw [List.foldl_append, List.foldl_append, List.foldl_cons]
  congr 1
  simp [stepLine, h]

/-- Witness for C7: a truncated line between two well-formed ones changes
nothing. -/
theorem c7_malformed_line_skipped_witness :
    aggregate "10.0.0.5" ([lineB1] ++ lineShort :: [lineB2]) =
      aggregate "10.0.0.5" ([lineB1] ++ [lineB2]) :=
  c7_malformed_line_skipped "10.0.0.5" [lineB1] [lineB2] lineShort (by decide)

/-- C8: an empty log yields an empty result, and the empty result is
reported with the ordinary `No sites with at least ... intervals at ...
seconds` message, not as an error. -/
theorem c8_empty_log_no_sites (client : String) (interval minCount : ℤ) :
    findBeacons client interval minCount [] = [] ∧
    reportLines interval minCount (findBeacons client interval minCount []) =
      ["No sites with at least " ++ toString minCount ++ " intervals at " ++
        toString interval ++ " seconds"] :=
  ⟨rfl, rfl⟩

/-- C9: with `interval ≥ 1`, the count reported for a url of the final
result is at most the length of its recorded series minus 2: each starting
index contributes at most one match, the inner scan never reaches the
oldest sorted position, and the self-comparison delta 0 never equals a
positive interval. -/
theorem c9_count_upper_bound (client : String) (interval minCount : ℤ)
    (lines : List String) (url : String) (c : ℕ)
    (hi : 1 ≤ interval) (h : (url, c) ∈ findBeacons client interval minCount lines) :
    c + 2 ≤ (seriesOf url (aggregate client lines)).length := by
  unfold findBeacons at h
  rw [mem_detect_iff] at h
  obtain ⟨ts, hts, h1, hc, h2⟩ := h
  have hnd := aggregate_keys_nodup client lines
  have hse := seriesOf_eq_of_mem hnd hts
  have hne := aggregate_series_ne_nil client lines _ hts
  have h0 : ts.length ≠ 0 := by simpa [List.length_eq_zero] using hne
  have hlen2 : 2 ≤ (sortDesc ts).length := by
    rw [length_sortDesc]
    omega
  have hb := beaconCount_bound hi (sortDesc ts) hlen2
  rw [length_sortDesc] at hb
  rw [hse, hc]
  omega

/-- Witness for C9 on the 3-chain log: count 1, series length 3. -/
theorem c9_count_upper_bound_witness :
    1 + 2 ≤ (seriesOf "/beacon" (aggregate "10.0.0.5" [lineB1, lineB2, lineB3])).length :=
  c9_count_upper_bound "10.0.0.5" 5 1 [lineB1, lineB2, lineB3] "/beacon" 1
    (by decide) (by decide)

/-- C10: the count reported for a url does not depend on `min_count`: if the
url appears in the results computed at two `min_count` values (all other
inputs equal), the two reported counts are equal. -/
theorem c10_count_independent_of_minCount (client : String) (interval m1 m2 : ℤ)
    (lines : List String) (url : String) (c1 c2 : ℕ)
    (h1 : (url, c1) ∈ findBeacons client interval m1 lines)
    (h2 : (url, c2) ∈ findBeacons client interval m2 lines) : c1 = c2 := by
  unfold findBeacons at h1 h2
  rw [mem_detect_iff] at h1 h2
  obtain ⟨ts, hts, _, hc1, _⟩ := h1
  obtain ⟨ts2, hts2, _, hc2, _⟩ := h2
  have hnd := aggregate_keys_nodup client lines
  have he1 := find?_eq_some_of_mem hnd hts
  have he2 := find?_eq_some_of_mem hnd hts2
  rw [he1] at he2
  injection he2 with he3
  have hts_eq : ts = ts2 := congrArg Prod.snd he3
  rw [hc1, hc2, hts_eq]

/-- Witness for C10 with `min_count` 1 and 0 on the 3-chain log. -/
theorem c10_count_independent_of_minCount_witness : (1 : ℕ) = 1 :=
  c10_count_independent_of_minCount "10.0.0.5" 5 1 0 [lineB1, lineB2, lineB3]
    "/beacon" 1 1 (by decide) (by decide)

end FindBeacons
